import Mathlib

/-!
Verification development for the `dam` streaming-aggregation pipeline
(src/main.py): a Buffer thread enqueues records from a source, an ETL
thread drains the buffer and feeds each record to a union of
aggregations, and a Display thread renders the aggregation tables.

The embedding below translates the pure data flow of src/main.py into
Lean: Python dicts become association lists, the FIFO queue becomes a
list with enqueue at the tail, exceptions become an `Except` error type,
and each thread loop becomes an explicit function of its state (with
fuel where the loop is unbounded).
-/

set_option autoImplicit false

namespace Dam

/-- A field value of a record: numeric or categorical, as produced by
`silly_stream` in src/main.py (floats are modelled as rationals). -/
inductive Value where
  | num (q : ℚ)
  | str (s : String)
deriving DecidableEq, Repr

/-- A record is a Python dict from field name to value (src/main.py
`Stream = Iterator[Tuple[int, dict]]`, records built in `silly_stream`). -/
abbrev Record := List (String × Value)

/-- Dict lookup `x[k]` as a total function returning `Option`. -/
def findField (r : Record) (k : String) : Option Value :=
  (r.find? (fun p => p.1 == k)).map Prod.snd

/-- Numeric field access: `x[k]` when present and numeric. -/
def numField (r : Record) (k : String) : Option ℚ :=
  match findField r k with
  | some (Value.num q) => some q
  | _ => none

/-! Part: Buffer (src/main.py lines 35-54) -/

/-- The Buffer of src/main.py: a running flag and a FIFO queue of
records (`queue.Queue`), front of the queue at the head of the list. -/
structure Buffer where
  running : Bool
  queue : List Record
deriving Repr

/-- A freshly constructed Buffer (`Buffer.__init__`). -/
def emptyBuffer : Buffer := ⟨true, []⟩

/-- `Buffer.stop`: sets the running flag to false. -/
def Buffer.stopB (b : Buffer) : Buffer := ⟨false, b.queue⟩

/-- One enqueue, `self.records.put(...)` in `Buffer.run`: FIFO append at
the tail. -/
def Buffer.put (b : Buffer) (r : Record) : Buffer := ⟨b.running, b.queue ++ [r]⟩

/-- A sequence of enqueues with no concurrent draining: the body of
`Buffer.run` executed once per record of `rs`. -/
def Buffer.pushAll (b : Buffer) (rs : List Record) : Buffer :=
  rs.foldl Buffer.put b

/-- `Buffer.__len__`: the queue depth (`self.records.qsize()`). -/
def Buffer.len (b : Buffer) : ℕ := b.queue.length

/-- `Buffer.__iter__`: `while not self.records.empty(): yield self.records.get()`.
Returns the pair (records yielded in order, queue contents left behind).
The loop checks emptiness before each `get`, so it never blocks and
stops as soon as the queue is observed empty. -/
def bufferIter : List Record → List Record × List Record
  | [] => ([], [])
  | r :: rest =>
      let p := bufferIter rest
      (r :: p.1, p.2)

/-! Part: Aggregations

`river.feature_extraction.Agg` and `river.stats.Mean` are external
library dependencies (imported at src/main.py lines 16-17 and 146);
their code is not under src/. They are modelled from the spec below. -/

/-- Modelled from the spec: RunningStat for a mean, the accumulator
being "count + running sum for a mean" (spec section 3); `river.stats.Mean`
itself is an external dependency not under src/. -/
structure MeanStat where
  count : ℕ
  total : ℚ
deriving DecidableEq, Repr

/-- A freshly initialized mean statistic (zero observations). -/
def MeanStat.init : MeanStat := ⟨0, 0⟩

/-- Incorporate one observation: O(1) incremental update. -/
def MeanStat.update (s : MeanStat) (x : ℚ) : MeanStat :=
  ⟨s.count + 1, s.total + x⟩

/-- A group key: the ordered tuple of categorical field values extracted
according to an aggregation's `by` fields (spec section 3). -/
abbrev GroupKey := List Value

/-- Modelled from the spec: an AggregationTable
(`river.feature_extraction.Agg`, external, not under src/): a target
numeric field `on`, grouping fields `bys`, a RunningStat prototype `how`
with its update function, and the insertion-ordered map from GroupKey to
RunningStat state (`agg.groups`, iterated at src/main.py line 67). -/
structure Agg (σ : Type) where
  onF : String
  bys : List String
  how : σ
  update : σ → ℚ → σ
  groups : List (GroupKey × σ)

/-- The GroupKey of a record for this aggregation: every grouping field
must be present (`tuple(x[by] for by in self.by)`). -/
def Agg.keyOf {σ : Type} (a : Agg σ) (r : Record) : Option GroupKey :=
  a.bys.mapM (findField r)

/-- The keys of an aggregation map, in insertion order. -/
def groupKeys {σ : Type} (l : List (GroupKey × σ)) : List GroupKey :=
  l.map Prod.fst

/-- Lookup in an aggregation map. -/
def lookupGroup {σ : Type} : List (GroupKey × σ) → GroupKey → Option σ
  | [], _ => none
  | (k2, s) :: rest, k => if k2 = k then some s else lookupGroup rest k

/-- Update the entry for key `k` with observation `x`; on the first
occurrence of `k`, create the entry at the end of the map with a freshly
initialized stat fed the observation (a lazily-growing table, spec
section 3). -/
def upsertGroup {σ : Type} (upd : σ → ℚ → σ) (ini : σ) (k : GroupKey) (x : ℚ) :
    List (GroupKey × σ) → List (GroupKey × σ)
  | [] => [(k, upd ini x)]
  | (k2, s) :: rest =>
      if k2 = k then (k2, upd s x) :: rest
      else (k2, s) :: upsertGroup upd ini k x rest

/-- Modelled from the spec: `Agg.learn_one` — compute the record's
GroupKey, and feed the record's target numeric field value to the
looked-up-or-created RunningStat. A record missing a required field for
this aggregation is skipped for this aggregation only (spec sections
4.2 and 6). -/
def Agg.learnOne {σ : Type} (a : Agg σ) (r : Record) : Agg σ :=
  match a.keyOf r, numField r a.onF with
  | some k, some x =>
      ⟨a.onF, a.bys, a.how, a.update, upsertGroup a.update a.how k x a.groups⟩
  | _, _ => a

/-- Feeding a sequence of records to one aggregation. -/
def Agg.learnMany {σ : Type} (a : Agg σ) (rs : List Record) : Agg σ :=
  rs.foldl Agg.learnOne a

/-! Part: ETL (src/main.py lines 75-105) -/

/-- `TransformerUnion.learn_one`: feed the record to every configured
aggregation. -/
def unionLearn {σ : Type} (aggs : List (Agg σ)) (r : Record) : List (Agg σ) :=
  aggs.map (fun a => a.learnOne r)

/-- The mutable state of the ETL thread: the aggregation union and the
processed counter `self.n` (src/main.py lines 80-81). -/
structure ETLData (σ : Type) where
  aggs : List (Agg σ)
  n : ℕ

/-- The body of the inner `for` loop of `ETL.run` for one record:
`self.agg.learn_one(record)` then `self.n += 1`. -/
def etlStep {σ : Type} (st : ETLData σ) (r : Record) : ETLData σ :=
  ⟨unionLearn st.aggs r, st.n + 1⟩

/-- One full draining pass of `ETL.run`: the `for record in self.stream`
loop over everything the buffer yields. -/
def drainPass {σ : Type} (st : ETLData σ) (buf : List Record) : ETLData σ :=
  buf.foldl etlStep st

/-! Part: Python exceptions relevant to `_percent_processed` -/

/-- The Python exceptions that can arise in `ETL._percent_processed`
(src/main.py lines 86-99): `len()` on an object with no `__len__` raises
`TypeError`; division by zero raises `ZeroDivisionError`; the `except`
clause at line 98 names `AttributeError`. -/
inductive PyErr where
  | typeError
  | zeroDivisionError
  | attributeError
deriving DecidableEq, Repr

/-- The builtin `len(stream)`: `some m` models a stream with `__len__`
reporting `m` pending records (a Buffer); `none` models a raw
stream/generator without `__len__`, on which Python `len()` raises
`TypeError`. -/
def lenOfStream : Option ℕ → Except PyErr ℕ
  | some m => Except.ok m
  | none => Except.error PyErr.typeError

/-- The `try` body of `_percent_processed`:
`return self.n / (self.n + len(self.stream))`. Division by zero raises
`ZeroDivisionError`. -/
def percentTry (n : ℕ) (sl : Option ℕ) : Except PyErr (Option ℚ) :=
  match lenOfStream sl with
  | Except.error e => Except.error e
  | Except.ok m =>
      if n + m = 0 then Except.error PyErr.zeroDivisionError
      else Except.ok (some ((n : ℚ) / ((n : ℚ) + (m : ℚ))))

/-- The `except AttributeError: return None` handler at src/main.py
lines 98-99: only `AttributeError` is caught; any other exception
propagates. -/
def catchAttr (r : Except PyErr (Option ℚ)) : Except PyErr (Option ℚ) :=
  match r with
  | Except.error PyErr.attributeError => Except.ok none
  | other => other

/-- `ETL._percent_processed` as a whole: the guarded try body. `n` is the
processed count, `sl` the stream's reported pending count when it has
one. -/
def percentProcessed (n : ℕ) (sl : Option ℕ) : Except PyErr (Option ℚ) :=
  catchAttr (percentTry n sl)

/-! Part: The ETL loop as a trace (src/main.py lines 101-105) -/

/-- Observable actions of the ETL loop: `poll` marks the top of one
`while self.running` iteration, `processRec` the handling of one record
by the inner `for` loop. A `sleep` action would mark a suspend; the
vocabulary includes it so the trace can state whether one occurs. -/
inductive ETLAction where
  | poll
  | processRec (r : Record)
  | sleep
deriving DecidableEq, Repr

/-- The action trace of `ETL.run` with `fuel` remaining `while`
iterations, starting with `buf` queued in the buffer and no concurrent
producer: each iteration drains the buffer and immediately loops. The
loop body (src/main.py lines 102-105) contains no sleep call. -/
def etlRunTrace : ℕ → List Record → List ETLAction
  | 0, _ => []
  | fuel + 1, buf =>
      ETLAction.poll :: (buf.map ETLAction.processRec ++ etlRunTrace fuel [])

/-! Part: Display (src/main.py lines 108-143) -/

/-- Terminal-sink operations of the Display thread. `acquire` and
`release` are `Live.__enter__`/`Live.__exit__` of the
`with Live(..., screen=True, transient=True)` block (line 124): taking
exclusive terminal control and restoring the prior terminal state. A
frame carries the snapshot of every aggregation table taken by
`make_tables`/`_river_agg_to_rich_table`. -/
inductive TermOp (σ : Type) where
  | acquire
  | renderFrame (tables : List (List (GroupKey × σ)))
  | release
deriving DecidableEq, Repr

/-- `make_tables` (src/main.py lines 118-122), with each table built by
`_river_agg_to_rich_table`: the rows come from `list(agg.groups.items())`
(line 67), a copy of the current key-to-stat pairs. -/
def makeTables {σ : Type} (aggs : List (Agg σ)) : List (List (GroupKey × σ)) :=
  aggs.map (fun a => a.groups)

/-- The body of the `while self.running` loop of `Display.run` with
`fuel` remaining iterations: each iteration evaluates
`self.etl._percent_processed` (line 133) — which may raise — and, if it
does not raise, composes and submits a frame. Returns the terminal
operations performed and the exception that escaped the loop, if any. -/
def displayBody {σ : Type} : ℕ → ETLData σ → Option ℕ → List (TermOp σ) × Option PyErr
  | 0, _, _ => ([], none)
  | fuel + 1, st, sl =>
      match percentProcessed st.n sl with
      | Except.error e => ([], some e)
      | Except.ok _ =>
          let p := displayBody fuel st sl
          (TermOp.renderFrame (makeTables st.aggs) :: p.1, p.2)

/-- `Display.run` as a whole: the `with Live(...)` block acquires the
terminal, runs the loop body, and `Live.__exit__` releases/restores the
terminal on every exit path — normal stop and exception alike — before
the exception (if any) leaves the thread. The ETL state is returned
unchanged: the Display only reads it. -/
def displayRun {σ : Type} (fuel : ℕ) (st : ETLData σ) (sl : Option ℕ) :
    List (TermOp σ) × Option PyErr × ETLData σ :=
  let p := displayBody fuel st sl
  (TermOp.acquire :: p.1 ++ [TermOp.release], p.2, st)

/-! Part: Concrete data from the driver (src/main.py lines 146-168) -/

/-- `Agg(on="x", by="c", how=stats.Mean())` with an empty table. -/
def aggC : Agg MeanStat := ⟨"x", ["c"], MeanStat.init, MeanStat.update, []⟩

/-- `Agg(on="x", by="d", how=stats.Mean())` with an empty table. -/
def aggD : Agg MeanStat := ⟨"x", ["d"], MeanStat.init, MeanStat.update, []⟩

/-- A record in the shape produced by `silly_stream`, with the numeric
fields simplified to small rationals. -/
def sampleRecord (c d : String) (x : ℚ) : Record :=
  [("c", Value.str c), ("d", Value.str d), ("x", Value.num x)]

/-- Five records, as in the end-to-end scenario of spec section 8. -/
def fiveRecords : List Record :=
  [sampleRecord "a" "c" 1, sampleRecord "b" "c" 2, sampleRecord "a" "d" 3,
   sampleRecord "b" "d" 4, sampleRecord "a" "c" 5]

/-- A record with the grouping field `c` absent (lacks a field required
by `aggC`) but with `d` and `x` present. -/
def recNoC : Record := [("d", Value.str "c"), ("x", Value.num 2)]

/-! Part: Helper lemmas -/

theorem pushAll_queue (b : Buffer) (rs : List Record) :
    (Buffer.pushAll b rs).queue = b.queue ++ rs := by
  induction rs generalizing b with
  | nil => simp [Buffer.pushAll]
  | cons r rest ih =>
      show (Buffer.pushAll (Buffer.put b r) rest).queue = _
      rw [ih]
      simp [Buffer.put]

theorem bufferIter_eq (q : List Record) : bufferIter q = (q, []) := by
  induction q with
  | nil => rfl
  | cons r rest ih => simp [bufferIter, ih]

theorem drainPass_n {σ : Type} (st : ETLData σ) (buf : List Record) :
    (drainPass st buf).n = st.n + buf.length := by
  induction buf generalizing st with
  | nil => rfl
  | cons r rest ih =>
      show (drainPass (etlStep st r) rest).n = _
      rw [ih]
      simp [etlStep]
      omega

/-! Part: Claim theorems -/

/-- Claim C1: pushing N records into the Buffer with no concurrent
draining leaves depth (len) equal to N, and a single drain (iteration
over the Buffer) yields exactly those N records in enqueue order, with
no loss and no duplication, leaving the queue empty. -/
theorem buffer_fifo_depth_drain (rs : List Record) :
    (Buffer.pushAll emptyBuffer rs).len = rs.length ∧
    bufferIter (Buffer.pushAll emptyBuffer rs).queue = (rs, []) := by
  have hq : (Buffer.pushAll emptyBuffer rs).queue = rs := by
    rw [pushAll_queue]; rfl
  refine ⟨?_, ?_⟩
  · rw [Buffer.len, hq]
  · rw [hq, bufferIter_eq]

/-- Claim C6: `Buffer.__iter__` (the drain) is a finite sequence that
removes and yields exactly the records present in the queue at call
time, in order; it terminates as soon as the queue is observed empty —
on an empty queue it yields nothing at once — and leaves the queue
empty. -/
theorem buffer_drain_exact (q : List Record) :
    bufferIter q = (q, []) ∧
    (bufferIter q).1.length = q.length ∧
    bufferIter ([] : List Record) = ([], []) := by
  refine ⟨bufferIter_eq q, ?_, rfl⟩
  rw [bufferIter_eq]

/-- Claim C3: for every draining pass of `ETL.run`, the processed
counter `n` grows by exactly one per record fed to the aggregation
union, hence is monotonically non-decreasing; in particular, draining a
stopped Buffer holding exactly 5 records yields `n = 5`. -/
theorem etl_processes_all {σ : Type} (st : ETLData σ) (buf : List Record) :
    (drainPass st buf).n = st.n + buf.length ∧
    st.n ≤ (drainPass st buf).n ∧
    (drainPass ⟨[aggC, aggD], 0⟩
      (bufferIter ((Buffer.pushAll emptyBuffer fiveRecords).stopB).queue).1).n = 5 := by
  refine ⟨drainPass_n st buf, ?_, ?_⟩
  · rw [drainPass_n]; omega
  · rfl

/-- Claim C2 (counter-evidence, code bug): on a raw stream with no
`__len__` — the case the docstring of `_percent_processed` describes as
"Raw streams do no do this" and the `Optional[float]` signature promises
to answer with `None` — `len(self.stream)` raises `TypeError`, which the
`except AttributeError` clause does not catch, so `_percent_processed`
raises instead of returning an absent value. Evaluated here at a
processed count of 7. -/
theorem percent_raw_stream_raises :
    percentProcessed 7 none = Except.error PyErr.typeError := rfl

/-- Claim C10: when the stream does report a pending count but the
processed count plus the pending count is zero, `_percent_processed`
raises `ZeroDivisionError` — the handler catches only `AttributeError`,
so the error propagates and the progress query is not total at this
edge case. -/
theorem percent_zero_division_raises (n m : ℕ) (h : n + m = 0) :
    percentProcessed n (some m) = Except.error PyErr.zeroDivisionError := by
  have ht : percentTry n (some m) = Except.error PyErr.zeroDivisionError := by
    simp [percentTry, lenOfStream, h]
  rw [percentProcessed, ht]
  rfl

/-- Witness for claim C10 at the concrete edge case of a freshly started
ETL over an empty buffer: 0 processed, 0 pending. -/
theorem percent_zero_division_raises_witness :
    (0 + 0 = 0) ∧
    percentProcessed 0 (some 0) = Except.error PyErr.zeroDivisionError :=
  ⟨by decide, percent_zero_division_raises 0 0 (by decide)⟩

/-- Claim C5 (counterexample): three `while self.running` iterations of
`ETL.run` over an empty buffer produce the trace `[poll, poll, poll]` —
the draining pass yields no records, yet no sleep occurs between one
poll and the next. -/
theorem etl_busy_spin_cex :
    etlRunTrace 3 [] = [ETLAction.poll, ETLAction.poll, ETLAction.poll] ∧
    ETLAction.sleep ∉ etlRunTrace 3 [] := by
  refine ⟨rfl, ?_⟩
  intro h
  simp [etlRunTrace] at h

/-- Claim C5 (amended): the loop body of `ETL.run` contains no suspend
at all — whatever the buffer holds, the trace of the loop never contains
a sleep action; when the draining pass yields nothing the loop
immediately polls again (busy-spins). -/
theorem etl_trace_no_sleep (fuel : ℕ) (buf : List Record) :
    ETLAction.sleep ∉ etlRunTrace fuel buf := by
  induction fuel generalizing buf with
  | zero => simp [etlRunTrace]
  | succ f ih =>
      simp [etlRunTrace, List.mem_append, List.mem_map]
      exact ih []

theorem groupKeys_upsert {σ : Type} (upd : σ → ℚ → σ) (ini : σ) (k : GroupKey) (x : ℚ)
    (l : List (GroupKey × σ)) :
    groupKeys (upsertGroup upd ini k x l) =
      if k ∈ groupKeys l then groupKeys l else groupKeys l ++ [k] := by
  induction l with
  | nil => simp [upsertGroup, groupKeys]
  | cons p rest ih =>
      obtain ⟨k2, s⟩ := p
      by_cases h : k2 = k
      · subst h
        simp [upsertGroup, groupKeys]
      · simp only [upsertGroup, if_neg h, groupKeys, List.map_cons] at ih ⊢
        rw [ih]
        by_cases hm : k ∈ List.map Prod.fst rest
        · rw [if_pos hm, if_pos (List.mem_cons_of_mem k2 hm)]
        · have hnc : k ∉ k2 :: List.map Prod.fst rest := by
            intro hc
            rcases List.mem_cons.mp hc with e | e
            · exact h (Eq.symm e)
            · exact hm e
          rw [if_neg hm, if_neg hnc]
          rfl

theorem mem_groupKeys_upsert {σ : Type} (upd : σ → ℚ → σ) (ini : σ) (k : GroupKey)
    (x : ℚ) (l : List (GroupKey × σ)) (k2 : GroupKey) (h : k2 ∈ groupKeys l) :
    k2 ∈ groupKeys (upsertGroup upd ini k x l) := by
  rw [groupKeys_upsert]
  split
  · exact h
  · exact List.mem_append_left _ h

theorem nodup_groupKeys_upsert {σ : Type} (upd : σ → ℚ → σ) (ini : σ) (k : GroupKey)
    (x : ℚ) (l : List (GroupKey × σ)) (h : (groupKeys l).Nodup) :
    (groupKeys (upsertGroup upd ini k x l)).Nodup := by
  rw [groupKeys_upsert]
  split
  · exact h
  · next hk => simp [List.nodup_append, h, hk]

theorem lookupGroup_upsert_fresh {σ : Type} (upd : σ → ℚ → σ) (ini : σ) (k : GroupKey)
    (x : ℚ) (l : List (GroupKey × σ)) (h : k ∉ groupKeys l) :
    lookupGroup (upsertGroup upd ini k x l) k = some (upd ini x) := by
  induction l with
  | nil => simp [upsertGroup, lookupGroup]
  | cons p rest ih =>
      obtain ⟨k2, s⟩ := p
      have hne : k2 ≠ k := by
        intro e
        exact h (by simp [groupKeys, e])
      have hrest : k ∉ groupKeys rest := by
        intro hm
        exact h (by simp [groupKeys] at hm ⊢; exact Or.inr hm)
      simp [upsertGroup, hne, lookupGroup, ih hrest]

theorem mem_groupKeys_learnOne {σ : Type} (a : Agg σ) (r : Record) (k2 : GroupKey)
    (h : k2 ∈ groupKeys a.groups) : k2 ∈ groupKeys (a.learnOne r).groups := by
  unfold Agg.learnOne
  cases hk : a.keyOf r with
  | none => exact h
  | some k =>
      cases hx : numField r a.onF with
      | none => exact h
      | some x => exact mem_groupKeys_upsert a.update a.how k x a.groups k2 h

theorem nodup_groupKeys_learnOne {σ : Type} (a : Agg σ) (r : Record)
    (h : (groupKeys a.groups).Nodup) : (groupKeys (a.learnOne r).groups).Nodup := by
  unfold Agg.learnOne
  cases hk : a.keyOf r with
  | none => exact h
  | some k =>
      cases hx : numField r a.onF with
      | none => exact h
      | some x => exact nodup_groupKeys_upsert a.update a.how k x a.groups h

theorem mem_groupKeys_learnMany {σ : Type} (a : Agg σ) (rs : List Record) (k2 : GroupKey)
    (h : k2 ∈ groupKeys a.groups) : k2 ∈ groupKeys (a.learnMany rs).groups := by
  induction rs generalizing a with
  | nil => exact h
  | cons r rest ih =>
      show k2 ∈ groupKeys ((a.learnOne r).learnMany rest).groups
      exact ih (a.learnOne r) (mem_groupKeys_learnOne a r k2 h)

theorem nodup_groupKeys_learnMany {σ : Type} (a : Agg σ) (rs : List Record)
    (h : (groupKeys a.groups).Nodup) : (groupKeys (a.learnMany rs).groups).Nodup := by
  induction rs generalizing a with
  | nil => exact h
  | cons r rest ih =>
      show (groupKeys ((a.learnOne r).learnMany rest).groups).Nodup
      exact ih (a.learnOne r) (nodup_groupKeys_learnOne a r h)

/-- Claim C4: a record missing a field required by one aggregation is
skipped for that aggregation only — the other aggregations of the union
still process the record, subsequent records are processed (the counter
covers every record of the pass), and the ETL task does not abort
(processing is total). -/
theorem etl_missing_field_skip {σ : Type} (a1 a2 : Agg σ) (r : Record) (rs : List Record)
    (n0 : ℕ) (h : a1.keyOf r = none ∨ numField r a1.onF = none) :
    a1.learnOne r = a1 ∧
    unionLearn [a1, a2] r = [a1, a2.learnOne r] ∧
    (drainPass ⟨[a1, a2], n0⟩ (r :: rs)).n = n0 + rs.length + 1 := by
  have hskip : a1.learnOne r = a1 := by
    unfold Agg.learnOne
    rcases h with hk | hx
    · rw [hk]
    · cases hke : a1.keyOf r with
      | none => rfl
      | some k => rw [hx]
  refine ⟨hskip, ?_, ?_⟩
  · simp [unionLearn, hskip]
  · rw [drainPass_n]
    simp
    omega

/-- Witness for claim C4: the record `recNoC` lacks the grouping field
`c` required by `aggC` while `aggD` can still process it. -/
theorem etl_missing_field_skip_witness :
    (aggC.keyOf recNoC = none ∨ numField recNoC aggC.onF = none) ∧
    (aggC.learnOne recNoC = aggC ∧
     unionLearn [aggC, aggD] recNoC = [aggC, aggD.learnOne recNoC] ∧
     (drainPass ⟨[aggC, aggD], 0⟩ (recNoC :: ([] : List Record))).n =
       0 + List.length ([] : List Record) + 1) :=
  ⟨Or.inl (by decide),
   etl_missing_field_skip aggC aggD recNoC [] 0 (Or.inl (by decide))⟩

/-- Claim C7: over any ingested sequence, an AggregationTable's entries,
once created, are never removed (every key stays); entries stay unique
(created exactly once per newly observed key); and on the first
occurrence of a key the entry is created with a freshly initialized
RunningStat fed that record's observation. -/
theorem agg_groups_persistent {σ : Type} (a : Agg σ) (rs : List Record)
    (hnd : (groupKeys a.groups).Nodup) :
    (∀ k, k ∈ groupKeys a.groups → k ∈ groupKeys (a.learnMany rs).groups) ∧
    (groupKeys (a.learnMany rs).groups).Nodup ∧
    (∀ r k x, a.keyOf r = some k → numField r a.onF = some x →
      k ∉ groupKeys a.groups →
      lookupGroup (a.learnOne r).groups k = some (a.update a.how x)) := by
  refine ⟨fun k hk => mem_groupKeys_learnMany a rs k hk,
          nodup_groupKeys_learnMany a rs hnd, ?_⟩
  intro r k x hk hx hnew
  unfold Agg.learnOne
  rw [hk, hx]
  exact lookupGroup_upsert_fresh a.update a.how k x a.groups hnew

/-- Witness for claim C7 at the driver's aggregation `Agg(on="x",
by="c", how=Mean())` with its initially empty table, fed the five
sample records. -/
theorem agg_groups_persistent_witness :
    (groupKeys aggC.groups).Nodup ∧
    ((∀ k, k ∈ groupKeys aggC.groups → k ∈ groupKeys (aggC.learnMany fiveRecords).groups) ∧
     (groupKeys (aggC.learnMany fiveRecords).groups).Nodup ∧
     (∀ r k x, aggC.keyOf r = some k → numField r aggC.onF = some x →
       k ∉ groupKeys aggC.groups →
       lookupGroup (aggC.learnOne r).groups k = some (aggC.update aggC.how x))) :=
  ⟨by decide, agg_groups_persistent aggC fiveRecords (by decide)⟩

/-- Claim C9: on every exit path of `Display.run` — the cooperative stop
(fuel runs out with no failure) or an exception raised inside the loop —
the terminal control acquired on entry to the `with Live(...)` block is
released last, restoring the prior terminal state before the task exits;
and the Display returns the ETL state unchanged (it writes only to the
terminal sink and never mutates the aggregation tables). The last two
conjuncts exhibit the failure path concretely: with 0 processed and 0
pending the loop raises `ZeroDivisionError`, and the terminal trace is
still `[acquire, release]`. -/
theorem display_restores_terminal {σ : Type} (fuel : ℕ) (st : ETLData σ) (sl : Option ℕ) :
    (displayRun fuel st sl).1.head? = some TermOp.acquire ∧
    (displayRun fuel st sl).1.getLast? = some TermOp.release ∧
    (displayRun fuel st sl).2.2 = st ∧
    (displayRun 1 (⟨[], 0⟩ : ETLData MeanStat) (some 0)).2.1 = some PyErr.zeroDivisionError ∧
    (displayRun 1 (⟨[], 0⟩ : ETLData MeanStat) (some 0)).1 =
      [TermOp.acquire, TermOp.release] := by
  refine ⟨rfl, ?_, rfl, rfl, rfl⟩
  show (TermOp.acquire :: (displayBody fuel st sl).1 ++ [TermOp.release]).getLast? =
    some TermOp.release
  rw [show TermOp.acquire :: (displayBody fuel st sl).1 ++ [TermOp.release] =
        (TermOp.acquire :: (displayBody fuel st sl).1) ++ [TermOp.release] from rfl]
  exact List.getLast?_concat _

end Dam
